import Mathlib

/-!
Verification of the worktree lifecycle orchestration engine of the `wt`
repository (a git worktree manager written in Python).  Each Python function
relevant to the checked claims is shallowly embedded as an executable Lean
definition; theorems about those definitions settle the claims.

Conventions used throughout:
* Python `str` is `String`; filesystem paths are carried as their string form.
* Fallible Python code (exceptions) is embedded with `Except String`.
* Subprocess results (`git ...` invocations, `datetime.now()`, the process
  environment) are passed in explicitly as parameters, following the spec's
  own design note that ambient state should be modelled as injected values.
-/

namespace WT

/-! ## Repository State Reader (`src/wt/gitutil.py`)

`WorktreeInfo` is the `NamedTuple` of `gitutil.py`; `list_worktrees` parses
the output of `git worktree list --porcelain`, given here as the list of
output lines (`str.splitlines()` of the stdout text). -/
/-- `WorktreeInfo` from `src/wt/gitutil.py`: one parsed porcelain record. -/
structure WorktreeInfo where
  path : String
  branch : Option String
  sha : String
  is_bare : Bool
  locked : Option String
deriving DecidableEq, Repr

/-- The in-progress block of `list_worktrees`: the Python dict `current`.
Each field models one possible dict key; `none` / `false` means the key is
absent. -/
structure CurrentBlock where
  worktree : Option String := none
  head : Option String := none
  branch : Option String := none
  bare : Bool := false
  locked : Option String := none
deriving DecidableEq, Repr

/-- The empty dict `current = {}`. -/
def emptyCurrent : CurrentBlock := {}

/-- Truth value of the Python `if current:` test: the dict is non-empty iff
some key has been set. This is the negation of that test. -/
def CurrentBlock.isEmptyDict (c : CurrentBlock) : Bool :=
  c.worktree.isNone && c.head.isNone && c.branch.isNone && !c.bare && c.locked.isNone

/-- Python `str.startswith`: code-point prefix test (defined over the
character list so that concrete inputs evaluate inside the kernel). -/
def strStartsWith (s p : String) : Bool := p.data.isPrefixOf s.data

/-- Python string slicing `s[n:]`: drop the first `n` code points. -/
def strDrop (s : String) (n : Nat) : String := ⟨s.data.drop n⟩

/-- The per-line dispatch of `list_worktrees` (the `elif` chain over a
non-blank line), updating the `current` dict. -/
def parseLine (c : CurrentBlock) (line : String) : CurrentBlock :=
  if strStartsWith line "worktree " then { c with worktree := some (strDrop line 9) }
  else if strStartsWith line "HEAD " then { c with head := some (strDrop line 5) }
  else if strStartsWith line "branch " then
    let ref := strDrop line 7
    if strStartsWith ref "refs/heads/" then { c with branch := some (strDrop ref 11) }
    else { c with branch := some ref }
  else if line = "bare" then { c with bare := true }
  else if strStartsWith line "locked " then { c with locked := some (strDrop line 7) }
  else c

/-- Building the `WorktreeInfo` appended by `list_worktrees`. The Python
subscripts `current["worktree"]` and `current["HEAD"]` raise `KeyError` when
absent; `.get` keys default to `None` / `False`. -/
def finalize (c : CurrentBlock) : Except String WorktreeInfo :=
  match c.worktree with
  | none => .error "KeyError: worktree"
  | some w =>
    match c.head with
    | none => .error "KeyError: HEAD"
    | some h =>
      .ok { path := w, branch := c.branch, sha := h, is_bare := c.bare, locked := c.locked }

/-- Parser state: the records accumulated so far and the in-progress dict. -/
abbrev ParseState := List WorktreeInfo × CurrentBlock

/-- Flushing the current block (the `if current:` append in `list_worktrees`,
performed on a blank line and once more at end of input). -/
def flushBlock (st : ParseState) : Except String ParseState :=
  if st.2.isEmptyDict then .ok st
  else do
    let w ← finalize st.2
    .ok (st.1 ++ [w], emptyCurrent)

/-- One loop iteration of `list_worktrees` over a single line. -/
def stepLine (st : ParseState) (line : String) : Except String ParseState :=
  if line = "" then flushBlock st
  else .ok (st.1, parseLine st.2 line)

/-- `list_worktrees` of `src/wt/gitutil.py`, with the porcelain stdout lines
as input: fold the per-line step over all lines, then flush the final block
("Don't forget the last worktree"). -/
def list_worktrees (lines : List String) : Except String (List WorktreeInfo) := do
  let st ← lines.foldlM stepLine ([], emptyCurrent)
  let st2 ← flushBlock st
  .ok st2.1

/-- The record a single well-formed block of non-blank lines produces. -/
def recordOf (b : List String) : Except String WorktreeInfo :=
  finalize (b.foldl parseLine emptyCurrent)

/-- Joining blocks of lines with exactly one blank separator line between
consecutive blocks, and no trailing blank line. -/
def joinBlocks : List (List String) → List String
  | [] => []
  | [b] => b
  | b :: bs => b ++ "" :: joinBlocks bs

/-- `list_worktrees` with an explicit accumulator of already-parsed records. -/
def runFrom (rs : List WorktreeInfo) (ls : List String) :
    Except String (List WorktreeInfo) := do
  let st ← ls.foldlM stepLine (rs, emptyCurrent)
  let st2 ← flushBlock st
  .ok st2.1

/-! ## Configuration merge (`src/wt/config.py`)

Python configuration values are nested `dict`s produced by `tomllib`. The
value universe is embedded as `CVal`; a dict is its (insertion-ordered)
association list, as Python dicts preserve insertion order. -/
/-- A TOML-shaped configuration value. -/
inductive CVal where
  | str : String → CVal
  | int : Int → CVal
  | bool : Bool → CVal
  | strList : List String → CVal
  | dict : List (String × CVal) → CVal

/-- A configuration dict: insertion-ordered key/value pairs. -/
abbrev CDict := List (String × CVal)

/-- Python `key in d` / `d[key]` read: the first (unique, for genuine dicts)
binding of the key. -/
def lookupKey : CDict → String → Option CVal
  | [], _ => none
  | (k', v) :: rest, k => if k' = k then some v else lookupKey rest k

/-- Python `d[key] = value`: replace in place when the key is present
(keeping its position), append otherwise. -/
def setKey : CDict → String → CVal → CDict
  | [], k, v => [(k, v)]
  | (k', v') :: rest, k, v =>
    if k' = k then (k, v) :: rest else (k', v') :: setKey rest k v

/-- The guard `key in result and isinstance(result[key], dict) and
isinstance(value, dict)` of `merge_configs`: when it holds, return the two
dicts to merge recursively. -/
def bothDicts : Option CVal → CVal → Option (CDict × CDict)
  | some (.dict d1), .dict d2 => some (d1, d2)
  | _, _ => none

/-- `merge_configs` from `src/wt/config.py`: start from a copy of `base` and
fold the override's items over it — recursing when both the accumulator and
the override hold a dict at the key, replacing outright otherwise. -/
def merge_configs : CDict → CDict → CDict
  | base, [] => base
  | base, (k, v) :: rest =>
    match hbd : bothDicts (lookupKey base k) v with
    | some (d1, d2) => merge_configs (setKey base k (.dict (merge_configs d1 d2))) rest
    | none => merge_configs (setKey base k v) rest
termination_by base ov => sizeOf ov
decreasing_by
  · have hsz : sizeOf d2 < sizeOf v := by
      rcases hlk : lookupKey base k with _ | vo
      · rw [hlk] at hbd
        simp [bothDicts] at hbd
      · rw [hlk] at hbd
        cases vo <;> cases v <;> simp_all [bothDicts]
    simp_wf
    omega
  · simp_wf
  · simp_wf

/-- `get_default_config` from `src/wt/config.py`. -/
def get_default_config : CDict :=
  [("paths", .dict [("worktree_root", .str ""),
                    ("worktree_path_template", .str "$WT_ROOT/$BRANCH_NAME")]),
   ("branches", .dict [("auto_prefix", .str "")]),
   ("hooks", .dict [("post_create_dir", .str "hooks/post_create.d"),
                    ("continue_on_error", .bool false),
                    ("timeout_seconds", .int 300)]),
   ("update", .dict [("base", .str "origin/main"),
                     ("strategy", .str "rebase"),
                     ("auto_stash", .bool false)]),
   ("prune", .dict [("protected", .strList ["main", "master", "develop"]),
                    ("delete_branch_with_worktree", .bool false)]),
   ("ui", .dict [("rich", .bool false), ("json_indent", .int 2)])]

/-- `load_config` from `src/wt/config.py`. A layer is `some d` when the
corresponding file exists (and parsed to `d`) and `none` otherwise; the
local layer is `none` in particular when `repo_root` is `None`. Layers are
merged over the defaults in the order global, local, CLI. -/
def load_config (globalCfg localCfg cliOverrides : Option CDict) : CDict :=
  let config := get_default_config
  let config := match globalCfg with
    | some g => merge_configs config g
    | none => config
  let config := match localCfg with
    | some l => merge_configs config l
    | none => config
  match cliOverrides with
  | some o => merge_configs config o
  | none => config

/-- Two-level read `cfg[k1][k2]` used by the precedence examples. -/
def configGet2 (cfg : CDict) (k1 k2 : String) : Option CVal :=
  match lookupKey cfg k1 with
  | some (.dict d) => lookupKey d k2
  | _ => none

/-! ## Heap-level model of `merge_configs` (frame property)

To state that `merge_configs` mutates neither of its argument dicts nor any
nested dict reachable from them, the Python object graph is made explicit: a
store of objects addressed by allocation order, where a dict holds addresses
of its values. `base.copy()` starts from the entry list of `base` (sharing
value addresses), item assignment updates only that new entry list, and every
dict the function creates is a fresh allocation at the end of the store. -/
/-- A Python object: a leaf value, or a dict mapping keys to object
addresses. -/
inductive HObj where
  | str : String → HObj
  | int : Int → HObj
  | bool : Bool → HObj
  | strList : List String → HObj
  | dict : List (String × Nat) → HObj

/-- The object store: address `a` denotes `σ[a]?`; allocation appends. -/
abbrev Store := List HObj

/-- `key in d` / `d[key]` on a heap dict's entry list. -/
def lookupAddr : List (String × Nat) → String → Option Nat
  | [], _ => none
  | (k', a) :: rest, k => if k' = k then some a else lookupAddr rest k

/-- `d[key] = addr` on a heap dict's entry list. -/
def setAddr : List (String × Nat) → String → Nat → List (String × Nat)
  | [], k, a => [(k, a)]
  | (k', a') :: rest, k, a =>
    if k' = k then (k, a) :: rest else (k', a') :: setAddr rest k a

mutual

/-- `merge_configs` over the explicit store: read the two dicts, fold the
override's items over a copy of the base's entry list, and allocate the
result as a fresh dict. Recursion is fuelled (Python would not terminate on a
cyclic object graph either); `none` means the fuel ran out. -/
def merge_configs_heap : Nat → Store → Nat → Nat → Option (Store × Nat)
  | 0, _, _, _ => none
  | fuel + 1, σ, bAddr, oAddr =>
    match σ[bAddr]?, σ[oAddr]? with
    | some (.dict be), some (.dict oe) =>
      match mergeItemsH fuel σ be oe with
      | some (σ2, entries) => some (σ2 ++ [.dict entries], σ2.length)
      | none => none
    | _, _ => none

/-- The `for key, value in override.items()` loop of `merge_configs`: `res`
is the entry list of the freshly copied result dict. -/
def mergeItemsH : Nat → Store → List (String × Nat) → List (String × Nat) →
    Option (Store × List (String × Nat))
  | 0, _, _, _ => none
  | _ + 1, σ, res, [] => some (σ, res)
  | fuel + 1, σ, res, (k, a) :: rest =>
    match lookupAddr res k with
    | some b =>
      match σ[b]?, σ[a]? with
      | some (.dict _), some (.dict _) =>
        match merge_configs_heap fuel σ b a with
        | some (σ2, addr) => mergeItemsH fuel σ2 (setAddr res k addr) rest
        | none => none
      | _, _ => mergeItemsH fuel σ (setAddr res k a) rest
    | none => mergeItemsH fuel σ (setAddr res k a) rest

end

/-! ## Path Template Resolver (`src/wt/paths.py`)

`render_path_template` substitutes `$VARNAME` tokens (regex
`\$([A-Z_][A-Z0-9_]*)`, leftmost, greedy name) by their context values,
raising `ValueError` on an unknown variable unless `allow_unknown` is set, in
which case the token text is left unchanged. The scanner below implements
exactly that tokenization; the final `Path(result)` constructor is modelled
as carrying the rendered string itself (the claims under test compare
rendered strings, never `pathlib` normalization). -/
/-- First character class of a variable name: `[A-Z_]`. -/
def isVarStart (c : Char) : Bool := ('A' ≤ c && c ≤ 'Z') || c = '_'

/-- Continuation character class of a variable name: `[A-Z0-9_]`. -/
def isVarCont (c : Char) : Bool := isVarStart c || ('0' ≤ c && c ≤ '9')

/-- Greedy run of name-continuation characters (`[A-Z0-9_]*`). -/
def takeNameRest : List Char → List Char × List Char
  | [] => ([], [])
  | c :: cs =>
    if isVarCont c then
      let p := takeNameRest cs
      (c :: p.1, p.2)
    else ([], c :: cs)

/-- Maximal variable name at the head of the input (`[A-Z_][A-Z0-9_]*`), with
the rest of the input; `none` when no name starts here. -/
def takeName1 : List Char → Option (List Char × List Char)
  | [] => none
  | c :: cs =>
    if isVarStart c then
      let p := takeNameRest cs
      some (c :: p.1, p.2)
    else none

/-- One template fragment: a literal character, or a `$NAME` token. -/
inductive Segment where
  | lit : Char → Segment
  | tok : List Char → Segment
deriving DecidableEq, Repr

/-- Fuelled left-to-right tokenizer of the template (fuel is only a
termination device; `scanTemplate` supplies enough). On `$` the maximal
variable name is taken as a token; a `$` not starting a name is a literal. -/
def scanFuel : Nat → List Char → List Segment
  | 0, _ => []
  | _ + 1, [] => []
  | fuel + 1, c :: cs =>
    if c = '$' then
      match takeName1 cs with
      | some (nm, rest) => .tok nm :: scanFuel fuel rest
      | none => .lit '$' :: scanFuel fuel cs
    else .lit c :: scanFuel fuel cs

/-- The token/literal decomposition of a template. -/
def scanTemplate (cs : List Char) : List Segment := scanFuel cs.length cs

/-- Python `context[var_name]` / `var_name not in context`. -/
def ctxLookup : List (String × String) → String → Option String
  | [], _ => none
  | (k, v) :: rest, nm => if k = nm then some v else ctxLookup rest nm

/-- `replace_var` applied over all fragments: known tokens are substituted by
their context value, unknown tokens raise `ValueError` unless
`allow_unknown`, in which case the matched text is left unchanged. -/
def renderSegs : List Segment → List (String × String) → Bool →
    Except String (List Char)
  | [], _, _ => .ok []
  | .lit c :: rest, ctx, allow =>
    match renderSegs rest ctx allow with
    | .ok r => .ok (c :: r)
    | .error e => .error e
  | .tok nm :: rest, ctx, allow =>
    match ctxLookup ctx (String.mk nm) with
    | some v =>
      match renderSegs rest ctx allow with
      | .ok r => .ok (v.data ++ r)
      | .error e => .error e
    | none =>
      if allow then
        match renderSegs rest ctx allow with
        | .ok r => .ok ('$' :: (nm ++ r))
        | .error e => .error e
      else .error ("Unknown template variable: $" ++ String.mk nm)

/-- `render_path_template` from `src/wt/paths.py`. -/
def render_path_template (template : String) (context : List (String × String))
    (allow_unknown : Bool := false) : Except String String :=
  match renderSegs (scanTemplate template.data) context allow_unknown with
  | .ok cs => .ok (String.mk cs)
  | .error e => .error e

/-- The variable names referenced by a template. -/
def templateTokens (template : String) : List (List Char) :=
  (scanTemplate template.data).filterMap fun s =>
    match s with
    | .tok nm => some nm
    | .lit _ => none

/-- The source text of a fragment. -/
def segText : Segment → List Char
  | .lit c => [c]
  | .tok nm => '$' :: nm

/-- Concatenated source text of a fragment list. -/
def joinSegs : List Segment → List Char
  | [] => []
  | s :: rest => segText s ++ joinSegs rest

/-! ## Hook Pipeline — discovery (`src/wt/hooks.py`)

`_collect_executable_hooks` iterates `sorted(directory.iterdir())` and keeps
entries that are regular files with the execute bit; `discover_hooks` returns
the local directory's hooks followed by the global directory's hooks. A
directory listing is a list of `DirEntry` (the unordered `iterdir()` result);
a missing/non-directory hook dir — or an absent local config — is `none`.
Python sorts `Path` values, i.e. the path strings `dir/name` by code point;
within one directory (fixed `dir/` prefix) that is exactly the code-point
order of the file names, which `charLt` implements. -/
/-- One filesystem directory entry, with the metadata the discovery reads. -/
structure DirEntry where
  name : String
  isFile : Bool
  isExec : Bool
deriving DecidableEq, Repr

/-- A discovered hook: its directory and file name (a `Path`). -/
structure HookPath where
  dir : String
  name : String
deriving DecidableEq, Repr

/-- Code-point lexicographic strict order on character lists (Python `<` on
`str`). -/
def charLt : List Char → List Char → Bool
  | [], [] => false
  | [], _ :: _ => true
  | _ :: _, [] => false
  | a :: as, b :: bs =>
    if a < b then true
    else if b < a then false
    else charLt as bs

/-- Python `a <= b` on strings. -/
def nameLe (a b : String) : Bool := !(charLt b.data a.data)

/-- Comparison used by `sorted(directory.iterdir())` restricted to one
directory: order entries by file name. -/
def entryLe (a b : DirEntry) : Bool := nameLe a.name b.name

/-- Insertion of an entry into a sorted run. -/
def orderedInsertB (e : DirEntry) : List DirEntry → List DirEntry
  | [] => [e]
  | x :: xs => if entryLe e x then e :: x :: xs else x :: orderedInsertB e xs

/-- The `sorted(...)` call: a comparison sort over directory entries. -/
def insertionSortB : List DirEntry → List DirEntry
  | [] => []
  | x :: xs => orderedInsertB x (insertionSortB xs)

/-- `_collect_executable_hooks` from `src/wt/hooks.py`: the sorted entries
that are regular files and executable, as hook paths. -/
def collect_executable_hooks (dirPath : String) (entries : List DirEntry) :
    List HookPath :=
  ((insertionSortB entries).filter fun e => e.isFile && e.isExec).map
    fun e => { dir := dirPath, name := e.name }

/-- The hooks contributed by one (possibly missing) hook directory. -/
def collectOpt : Option (String × List DirEntry) → List HookPath
  | some (d, es) => collect_executable_hooks d es
  | none => []

/-- `discover_hooks` from `src/wt/hooks.py`: local-tier hooks first, then
global-tier hooks. -/
def discover_hooks (localDir globalDir : Option (String × List DirEntry)) :
    List HookPath :=
  collectOpt localDir ++ collectOpt globalDir

/-! ## Template context and worktree path resolution (`src/wt/paths.py`)

Paths are carried as their (absolute, normalized) string form; `Path.name`
and `Path.parent` are modelled component-wise on `/`-separated strings
(`pathBaseName`, `pathParent`; the `Path(".")`-style corner cases of
root-level paths do not arise for discovered repository roots).
`Path.absolute()` on an already absolute path is the identity.
`datetime.now()` is injected as explicit `dateIso`/`timeIso` strings (the
spec's design note asks for ambient state passed by parameter). -/
/-- Split a path string into its `/`-separated components. -/
def splitOnSlash : List Char → List (List Char)
  | [] => [[]]
  | c :: cs =>
    let r := splitOnSlash cs
    if c = '/' then [] :: r
    else
      match r with
      | [] => [[c]]
      | g :: gs => (c :: g) :: gs

/-- `Path(p).name`: the final path component. -/
def pathBaseName (p : String) : String :=
  String.mk (((splitOnSlash p.data).getLast?).getD [])

/-- `Path(p).parent`: all but the final component. -/
def pathParent (p : String) : String :=
  match (splitOnSlash p.data).dropLast with
  | [] => p
  | cs => String.mk (List.intercalate ['/'] cs)

/-- `default_wt_root` from `src/wt/paths.py`: the sibling directory
`<parent>/<repo_name>-worktrees`. -/
def default_wt_root (repoRoot : String) : String :=
  pathParent repoRoot ++ "/" ++ pathBaseName repoRoot ++ "-worktrees"

/-- The `[paths]` configuration group as read by the path resolver. -/
structure PathsConfig where
  worktree_root : String
  worktree_path_template : String
deriving DecidableEq, Repr

/-- `build_template_context` from `src/wt/paths.py` (insertion-ordered dict;
`WORKTREE_PATH` present only when a worktree path was supplied). -/
def build_template_context (repoRoot wtRoot branchName sourceBranch : String)
    (worktreePath : Option String) (dateIso timeIso : String) :
    List (String × String) :=
  [("REPO_ROOT", repoRoot),
   ("REPO_NAME", pathBaseName repoRoot),
   ("WT_ROOT", wtRoot),
   ("BRANCH_NAME", branchName),
   ("SOURCE_BRANCH", sourceBranch),
   ("DATE_ISO", dateIso),
   ("TIME_ISO", timeIso)] ++
  (match worktreePath with
   | some p => [("WORKTREE_PATH", p)]
   | none => [])

/-- `resolve_worktree_root` from `src/wt/paths.py`. -/
def resolve_worktree_root (repoRoot : String) (cfg : PathsConfig) :
    Except String String :=
  if cfg.worktree_root = "" then .ok (default_wt_root repoRoot)
  else render_path_template cfg.worktree_root
    [("REPO_ROOT", repoRoot), ("REPO_NAME", pathBaseName repoRoot)] false

/-- `resolve_worktree_path` from `src/wt/paths.py`: builds a context without
`WORKTREE_PATH` and renders the path template strictly. -/
def resolve_worktree_path (repoRoot branchName sourceBranch : String)
    (cfg : PathsConfig) (dateIso timeIso : String) : Except String String := do
  let wtRoot ← resolve_worktree_root repoRoot cfg
  let context := build_template_context repoRoot wtRoot branchName sourceBranch
    none dateIso timeIso
  render_path_template cfg.worktree_path_template context false

/-- The `branches.auto_prefix` application of `cmd_new` / `cmd_rm` /
`cmd_where` (`src/wt/cli.py`): prepend unless empty or already present. -/
def autoPrefixed (ap branch : String) : String :=
  if ap ≠ "" && !(strStartsWith branch ap) then ap ++ branch else branch

/-- The template context that `cmd_new` uses to render the destination path:
built inside `resolve_worktree_path` (cli.py line 48) from the original
(un-prefixed) branch name, without `WORKTREE_PATH`, at the clock value of
that call. -/
def cmdNewPathContext (repoRoot branch sourceBranch : String) (cfg : PathsConfig)
    (dateIso timeIso : String) : Except String (List (String × String)) := do
  let wtRoot ← resolve_worktree_root repoRoot cfg
  pure (build_template_context repoRoot wtRoot branch sourceBranch none dateIso timeIso)

/-- The template context that `cmd_new` passes to the post-create hooks
(cli.py lines 78-81): rebuilt from scratch with the auto-prefixed git branch
name, the rendered worktree path, and a fresh clock value. -/
def cmdNewHookContext (repoRoot branch sourceBranch ap : String) (cfg : PathsConfig)
    (d1 t1 d2 t2 : String) : Except String (List (String × String)) := do
  let gitBranch := autoPrefixed ap branch
  let worktreePath ← resolve_worktree_path repoRoot branch sourceBranch cfg d1 t1
  let wtRoot ← resolve_worktree_root repoRoot cfg
  pure (build_template_context repoRoot wtRoot gitBranch sourceBranch
    (some worktreePath) d2 t2)

/-! ## The new-worktree workflow (`cmd_new` in `src/wt/cli.py`)

`cmd_new` is embedded as a function from the observable repository/filesystem
state (as seen through the `git` and `os` calls it makes) to its outcome and
the ordered list of mutating actions it performs. Read-only queries come from
`GitWorld`; every mutating call (directory creation/removal, `git worktree
add`, `git branch -u`, VS Code settings write, hook execution) is recorded as
an `Effect`. The config values `cmd_new` reads are carried in `CmdConfig`
(the typed view of the merged config dict; per the source the `vscode` group
must be present in the user's config for this code path). -/
/-- Read-only repository and filesystem state consumed by `cmd_new`. -/
structure GitWorld where
  remoteRefs : List String
  localBranches : List String
  worktrees : List WorktreeInfo
  existingDirs : List String
  emptyDirs : List String
  hooks : List String
  hookOk : String → Bool

/-- Mutating actions of the new-worktree workflow, in program order. -/
inductive Effect where
  | fetch
  | rmdirDest (p : String)
  | mkdirParents (p : String)
  | worktreeAdd (path branch source : String) (createBranch : Bool)
  | worktreeRemove (p : String)
  | branchDelete (b : String)
  | setUpstream (branch upstream : String)
  | vscodeWrite (p : String)
  | hookRun (name : String)
deriving DecidableEq, Repr

/-- The configuration values `cmd_new` reads. -/
structure CmdConfig where
  paths : PathsConfig
  autoPrefixCfg : String
  continueOnError : Bool
  vscodeCreate : Bool

/-- CLI arguments of `wt new`. -/
structure CmdNewArgs where
  branch : String
  from_branch : String
  track : Bool
  force : Bool

/-- `get_default_branch` from `src/wt/gitutil.py`: probe `origin/main` then
`origin/master`, defaulting to `origin/main`. -/
def get_default_branch (remoteRefs : List String) : String :=
  if remoteRefs.contains "origin/main" then "origin/main"
  else if remoteRefs.contains "origin/master" then "origin/master"
  else "origin/main"

/-- `worktree_path_for_branch` from `src/wt/gitutil.py`: the path of the
first worktree checked out on the branch. -/
def worktree_path_for_branch (branch : String) (wts : List WorktreeInfo) :
    Option String :=
  match wts.find? (fun wt => wt.branch == some branch) with
  | some wt => some wt.path
  | none => none

/-- The source-branch resolution of `cmd_new`: the `--from` value, with the
default sentinel `origin/main` auto-detected against the remote. -/
def resolveSource (w : GitWorld) (a : CmdNewArgs) : String :=
  if a.from_branch = "origin/main" then get_default_branch w.remoteRefs
  else a.from_branch

/-- The hook loop of `run_post_create_hooks` (`src/wt/hooks.py`): run hooks
in order; a failing hook is a warning under `continue_on_error`, otherwise it
aborts the chain with a `HookError`. Returns the hooks actually run and the
outcome. -/
def runHooks : List String → (String → Bool) → Bool →
    List Effect × Except String Unit
  | [], _, _ => ([], .ok ())
  | h :: rest, hookOk, contErr =>
    if hookOk h then
      let r := runHooks rest hookOk contErr
      (.hookRun h :: r.1, r.2)
    else if contErr then
      let r := runHooks rest hookOk contErr
      (.hookRun h :: r.1, r.2)
    else ([.hookRun h], .error ("Hook failed: " ++ h))

/-- The mutating tail of `cmd_new` (`src/wt/cli.py` lines 60-101), entered
once all validations have passed: create parent directories, create the
worktree (with a new branch only when the git branch does not already exist
locally), optionally set upstream tracking, write VS Code settings when
configured, then run the post-create hooks; a `HookError` exits non-zero,
with no removal of anything already created. -/
def cmdNewFinish (w : GitWorld) (cfg : CmdConfig) (a : CmdNewArgs)
    (gitBranch source wtPath : String) (es1 : List Effect) :
    Except String String × List Effect :=
  let es2 := es1 ++ [.mkdirParents (pathParent wtPath)]
  let createBranch := !(w.localBranches.contains gitBranch)
  let es3 := es2 ++ [.worktreeAdd wtPath gitBranch source createBranch]
  let es4 :=
    if a.track && w.remoteRefs.contains ("origin/" ++ gitBranch) then
      es3 ++ [.setUpstream gitBranch ("origin/" ++ gitBranch)]
    else es3
  let es5 := if cfg.vscodeCreate then es4 ++ [.vscodeWrite wtPath] else es4
  let hr := runHooks w.hooks w.hookOk cfg.continueOnError
  match hr.2 with
  | .ok _ => (.ok wtPath, es5 ++ hr.1)
  | .error e => (.error e, es5 ++ hr.1)

/-- `cmd_new` from `src/wt/cli.py`: fetch; resolve and validate the source
branch; reject a branch that already has a worktree; render the destination
path; validate the destination directory (removing it first only when empty
and `--force`); create parent directories and the worktree; optionally set
upstream tracking; write VS Code settings when configured; run the
post-create hooks, where a `HookError` in fail-fast mode exits non-zero
without any rollback of the created worktree. -/
def cmd_new (w : GitWorld) (cfg : CmdConfig) (a : CmdNewArgs)
    (repoRoot d t : String) : Except String String × List Effect :=
  let gitBranch := autoPrefixed cfg.autoPrefixCfg a.branch
  let es0 : List Effect := [.fetch]
  let source := resolveSource w a
  if !(w.remoteRefs.contains source) then (.error "SourceBranchMissing", es0)
  else
    match worktree_path_for_branch gitBranch w.worktrees with
    | some _ => (.error "BranchAlreadyCheckedOut", es0)
    | none =>
      match resolve_worktree_path repoRoot a.branch source cfg.paths d t with
      | .error e => (.error e, es0)
      | .ok wtPath =>
        if w.existingDirs.contains wtPath then
          if a.force && w.emptyDirs.contains wtPath then
            cmdNewFinish w cfg a gitBranch source wtPath (es0 ++ [.rmdirDest wtPath])
          else (.error "DestinationExists", es0)
        else cmdNewFinish w cfg a gitBranch source wtPath es0

/-- Effects that are not a rollback: everything except worktree removal and
branch deletion. -/
def benignEffect : Effect → Prop
  | .worktreeRemove _ => False
  | .branchDelete _ => False
  | _ => True

/-! ## Status Reconciler and listing output (`src/wt/status.py`,
`src/wt/table.py`, `cmd_list`/`cmd_status` in `src/wt/cli.py`)

The per-worktree git queries of `get_worktree_status` (`git rev-parse`,
`git status --porcelain`, `git rev-list` counts) are injected as a `GitEnv`
oracle. Output is modelled as data: the JSON mode of `cmd_list` as its list
of row records, the table modes as their lists of cell rows (the final
column-width padding of `format_table` is pure presentation). -/
/-- The read-only per-worktree git queries used by the status reconciler:
short SHA, dirty flag, `(behind, ahead)` against upstream, behind-base
count. -/
structure GitEnv where
  shaShort : String → String
  dirty : String → Bool
  aheadBehind : String → Nat × Nat
  behindBase : String → String → Nat

/-- `WorktreeStatus` from `src/wt/status.py`. -/
structure WorktreeStatus where
  path : String
  branch : Option String
  sha_short : String
  is_dirty : Bool
  ahead : Nat
  behind : Nat
  behind_main : Nat
  locked : Option String
deriving DecidableEq, Repr

/-- `get_worktree_status` from `src/wt/status.py`. -/
def get_worktree_status (env : GitEnv) (wt : WorktreeInfo) (base : String) :
    WorktreeStatus :=
  { path := wt.path, branch := wt.branch, sha_short := env.shaShort wt.path,
    is_dirty := env.dirty wt.path,
    behind := (env.aheadBehind wt.path).1, ahead := (env.aheadBehind wt.path).2,
    behind_main := env.behindBase wt.path base, locked := wt.locked }

/-- `get_all_worktree_statuses` from `src/wt/status.py`: every non-bare
worktree, in enumeration order (`if wt.is_bare: continue`). -/
def get_all_worktree_statuses (env : GitEnv) (wts : List WorktreeInfo)
    (base : String) : List WorktreeStatus :=
  (wts.filter fun wt => !wt.is_bare).map fun wt => get_worktree_status env wt base

/-- The `--json` output of `cmd_list` (`src/wt/cli.py` lines 108-119): one
record per worktree — with no bare filter — copying every field including
`is_bare`. -/
def cmd_list_json (wts : List WorktreeInfo) : List WorktreeInfo :=
  wts.map fun wt =>
    { path := wt.path, branch := wt.branch, sha := wt.sha,
      is_bare := wt.is_bare, locked := wt.locked }

/-- The `--json` output of `cmd_status`: one record per reconciled status. -/
def cmd_status_json (env : GitEnv) (wts : List WorktreeInfo) (base : String) :
    List WorktreeStatus :=
  (get_all_worktree_statuses env wts base).map fun s =>
    { path := s.path, branch := s.branch, sha_short := s.sha_short,
      is_dirty := s.is_dirty, ahead := s.ahead, behind := s.behind,
      behind_main := s.behind_main, locked := s.locked }

/-- ANSI wrapping of `colorize` in `src/wt/table.py`. -/
def colorize (text color : String) : String := color ++ text ++ "\x1b[0m"

def colorCyan : String := "\x1b[36m"

def colorYellow : String := "\x1b[33m"

def colorDim : String := "\x1b[2m"

def colorBrightRed : String := "\x1b[91m"

def colorBrightGreen : String := "\x1b[92m"

/-- Python slicing `s[:n]`. -/
def strTake (s : String) (n : Nat) : String := ⟨s.data.take n⟩

/-- One row of `print_list_table` (`src/wt/table.py`): branch (or
`(detached)`), path, truncated SHA, lock reason — colorized in rich mode. -/
def list_table_row (rich : Bool) (wt : WorktreeInfo) : List String :=
  let branchName0 := match wt.branch with | some b => b | none => "(detached)"
  let branchName :=
    if rich then
      match wt.branch with
      | some _ => colorize branchName0 colorCyan
      | none => colorize "(detached)" colorYellow
    else branchName0
  let pathStr := if rich then colorize wt.path colorDim else wt.path
  let shaStr0 := if wt.sha.length > 7 then strTake wt.sha 7 else wt.sha
  let shaStr := if rich then colorize shaStr0 (colorDim ++ colorCyan) else shaStr0
  let lockedStr0 := match wt.locked with | some l => l | none => ""
  let lockedStr :=
    if rich && lockedStr0 ≠ "" then colorize lockedStr0 colorBrightRed else lockedStr0
  [branchName, pathStr, shaStr, lockedStr]

/-- The rows of `print_list_table`: one per non-bare worktree
(`if wt.is_bare: continue`). -/
def print_list_table_rows (wts : List WorktreeInfo) (rich : Bool) :
    List (List String) :=
  (wts.filter fun wt => !wt.is_bare).map (list_table_row rich)

/-- One row of `print_status_table` (`src/wt/table.py`). -/
def status_table_row (rich : Bool) (dirtyMarker : String) (s : WorktreeStatus) :
    List String :=
  let branchName0 := match s.branch with | some b => b | none => "(detached)"
  let branchName :=
    if rich then
      match s.branch with
      | some _ =>
        if !s.is_dirty && s.ahead == 0 && s.behind == 0 && s.behind_main == 0 then
          colorize branchName0 colorBrightGreen
        else colorize branchName0 colorCyan
      | none => colorize "(detached)" colorYellow
    else branchName0
  let pathStr := if rich then colorize s.path colorDim else s.path
  let shaStr := if rich then colorize s.sha_short (colorDim ++ colorCyan) else s.sha_short
  let dirtyStr0 := if s.is_dirty then dirtyMarker else ""
  let dirtyStr :=
    if rich && dirtyStr0 ≠ "" then colorize dirtyStr0 colorBrightRed else dirtyStr0
  let aheadStr0 := if s.ahead > 0 then "+" ++ toString s.ahead else ""
  let aheadStr :=
    if rich && aheadStr0 ≠ "" then colorize aheadStr0 colorBrightGreen else aheadStr0
  let behindStr0 := if s.behind > 0 then "-" ++ toString s.behind else ""
  let behindStr :=
    if rich && behindStr0 ≠ "" then colorize behindStr0 colorBrightRed else behindStr0
  let behindMainStr0 := if s.behind_main > 0 then "-" ++ toString s.behind_main else ""
  let behindMainStr :=
    if rich && behindMainStr0 ≠ "" then colorize behindMainStr0 colorYellow
    else behindMainStr0
  [branchName, pathStr, shaStr, dirtyStr, aheadStr, behindStr, behindMainStr]

/-- The rows of `print_status_table`: one per reconciled (non-bare) status. -/
def print_status_table_rows (env : GitEnv) (wts : List WorktreeInfo)
    (base : String) (rich : Bool) (dirtyMarker : String) : List (List String) :=
  (get_all_worktree_statuses env wts base).map (status_table_row rich dirtyMarker)

/-! ## Repo Lock (`src/wt/lock.py`, Unix path)

`RepoLock.acquire` opens the shared `wt.lock` file and calls
`fcntl.flock(fd, LOCK_EX | LOCK_NB)`; on failure it raises `LockError`
("Could not acquire lock (another wt process running?)"), on success it
marks the handle acquired. `release` unlocks (`LOCK_UN`) and closes the
file when the handle was acquired, and is a no-op otherwise; the lock file
is not deleted on the Unix path. -/
/-- Modelled from the spec: the state of the OS advisory lock on the
repository's shared `wt.lock` target — §4.5 specifies native advisory
locking as exclusive per target, so it is the (at most one) holder process.
This primitive (the `fcntl.flock` semantics) is the only modelled part that
is not the repository's own code. -/
structure LockSys where
  owner : Option Nat
deriving DecidableEq, Repr

/-- Modelled from the spec: `fcntl.flock(fd, LOCK_EX | LOCK_NB)` — a
non-blocking exclusive acquisition that returns immediately, succeeding
exactly when the target is unheld (or held by the caller). -/
def flock_ex_nb (sys : LockSys) (pid : Nat) : Except String LockSys :=
  match sys.owner with
  | none => .ok { owner := some pid }
  | some q => if q = pid then .ok sys else .error "EWOULDBLOCK"

/-- The `RepoLock` handle: the owning process and its `acquired` flag. -/
structure RepoLock where
  pid : Nat
  acquired : Bool
deriving DecidableEq, Repr

/-- `RepoLock.acquire` on the Unix path (`_acquire_unix`): try the
non-blocking flock; failure raises `LockError` without marking the handle
acquired, success marks it acquired. -/
def RepoLock.acquire (l : RepoLock) (sys : LockSys) :
    Except String (RepoLock × LockSys) :=
  match flock_ex_nb sys l.pid with
  | .ok sys2 => .ok ({ l with acquired := true }, sys2)
  | .error e => .error ("Could not acquire lock (another wt process running?): " ++ e)

/-- `RepoLock.release`: unlock and close when acquired, no-op otherwise. -/
def RepoLock.release (l : RepoLock) (sys : LockSys) : RepoLock × LockSys :=
  if l.acquired then ({ l with acquired := false }, { owner := none })
  else (l, sys)

/-! ### Proof infrastructure for the porcelain parser -/
theorem exceptOkBind {ε α β : Type} (a : α) (f : α → Except ε β) :
    (Except.ok a >>= f) = f a := rfl

theorem exceptErrorBind {ε α β : Type} (e : ε) (f : α → Except ε β) :
    ((Except.error e : Except ε α) >>= f) = .error e := rfl

theorem list_worktrees_eq_runFrom (ls : List String) :
    list_worktrees ls = runFrom [] ls := rfl

/-- Folding the monadic step over a run of non-blank lines is the pure
per-line dict update: no record is appended mid-block. -/
theorem foldlM_stepLine_nonblank (b : List String) (hb : ∀ l ∈ b, l ≠ "") :
    ∀ rs c, b.foldlM stepLine (rs, c) = .ok (rs, b.foldl parseLine c) := by
  induction b with
  | nil => intro rs c; rfl
  | cons l b ih =>
    intro rs c
    have hl : l ≠ "" := hb l (by simp)
    have hrest : ∀ l' ∈ b, l' ≠ "" := fun l' hl' => hb l' (by simp [hl'])
    simp only [List.foldlM_cons, stepLine, if_neg hl, exceptOkBind, List.foldl_cons]
    exact ih hrest (rs) (parseLine c l)

/-- Flushing a block whose dict finalizes successfully appends exactly that
record and resets the dict. -/
theorem flushBlock_ok {c : CurrentBlock} {w : WorktreeInfo} (hc : finalize c = .ok w)
    (rs : List WorktreeInfo) :
    flushBlock (rs, c) = .ok (rs ++ [w], emptyCurrent) := by
  have hw : ∃ a, c.worktree = some a := by
    cases h : c.worktree with
    | none => simp [finalize, h] at hc
    | some a => exact ⟨a, rfl⟩
  obtain ⟨a, ha⟩ := hw
  have hne : c.isEmptyDict = false := by
    simp [CurrentBlock.isEmptyDict, ha]
  simp only [flushBlock, hne, Bool.false_eq_true, if_false, hc, exceptOkBind]

/-- Key lemma: running the parser over blank-separated blocks appends exactly
one record per block to any accumulator. -/
theorem runFrom_joinBlocks (bs : List (List String)) :
    ∀ rs, (∀ b ∈ bs, (∀ l ∈ b, l ≠ "") ∧ ((recordOf b).toOption.isSome = true)) →
    runFrom rs (joinBlocks bs) = .ok (rs ++ bs.filterMap fun b => (recordOf b).toOption) := by
  induction bs with
  | nil =>
    intro rs _
    simp [runFrom, joinBlocks, flushBlock, emptyCurrent, CurrentBlock.isEmptyDict]
    rfl
  | cons b bs ih =>
    intro rs h
    have hb := h b (by simp)
    obtain ⟨hbl, hbs⟩ := hb
    obtain ⟨w, hw⟩ : ∃ w, recordOf b = .ok w := by
      cases hrec : recordOf b with
      | error e => rw [hrec] at hbs; simp [Except.toOption] at hbs
      | ok w => exact ⟨w, rfl⟩
    have hfin : finalize (b.foldl parseLine emptyCurrent) = .ok w := hw
    cases bs with
    | nil =>
      simp only [joinBlocks, runFrom]
      rw [foldlM_stepLine_nonblank b hbl rs emptyCurrent, exceptOkBind,
        flushBlock_ok hfin rs, exceptOkBind]
      simp [hw, Except.toOption]
    | cons b2 rest =>
      have hrest : ∀ x ∈ b2 :: rest,
          (∀ l ∈ x, l ≠ "") ∧ ((recordOf x).toOption.isSome = true) :=
        fun x hx => h x (by simp [hx])
      simp only [joinBlocks, runFrom]
      rw [List.foldlM_append, foldlM_stepLine_nonblank b hbl rs emptyCurrent, exceptOkBind,
        List.foldlM_cons]
      have hstep : stepLine (rs, b.foldl parseLine emptyCurrent) "" =
          .ok (rs ++ [w], emptyCurrent) := by
        simp only [stepLine, if_pos rfl]
        exact flushBlock_ok hfin rs
      rw [hstep, exceptOkBind]
      have := ih (rs ++ [w]) hrest
      simp only [runFrom] at this
      rw [this]
      simp [hw, Except.toOption]

/-- C1: `list_worktrees` finalizes and appends one record per block exactly at
each blank line and at end of input: for any list of well-formed blocks (all
lines non-blank, block finalizable) joined by single blank separators with no
trailing blank line, the parser emits exactly one record per block — two
blocks separated by one blank line give exactly two records, and the final
block is emitted at end of input even without a trailing blank line. -/
theorem list_worktrees_flush_on_blank_or_eof (bs : List (List String))
    (h : ∀ b ∈ bs, (∀ l ∈ b, l ≠ "") ∧ ((recordOf b).toOption.isSome = true)) :
    list_worktrees (joinBlocks bs) = .ok (bs.filterMap fun b => (recordOf b).toOption) ∧
    (bs.filterMap fun b => (recordOf b).toOption).length = bs.length := by
  constructor
  · rw [list_worktrees_eq_runFrom]
    simpa using runFrom_joinBlocks bs [] h
  · induction bs with
    | nil => rfl
    | cons b bs ih =>
      have hb := (h b (by simp)).2
      cases hrec : (recordOf b).toOption with
      | none => rw [hrec] at hb; simp at hb
      | some w =>
        simp only [List.filterMap_cons, hrec, List.length_cons]
        rw [ih (fun x hx => h x (by simp [hx]))]

/-- Witness for C1: two concrete blocks separated by one blank line parse to
exactly two records, the second emitted at end of input with no trailing
blank line. -/
theorem list_worktrees_flush_on_blank_or_eof_witness :
    list_worktrees ["worktree /a", "HEAD aaa", "", "worktree /b", "HEAD bbb"] =
      .ok [{ path := "/a", branch := none, sha := "aaa", is_bare := false, locked := none },
           { path := "/b", branch := none, sha := "bbb", is_bare := false, locked := none }] := by
  have h := (list_worktrees_flush_on_blank_or_eof
    [["worktree /a", "HEAD aaa"], ["worktree /b", "HEAD bbb"]] (by decide)).1
  exact (rfl :
      list_worktrees ["worktree /a", "HEAD aaa", "", "worktree /b", "HEAD bbb"] =
        list_worktrees (joinBlocks [["worktree /a", "HEAD aaa"], ["worktree /b", "HEAD bbb"]])
    ).trans (h.trans rfl)

/-! ### Proof infrastructure for the configuration merge -/
theorem merge_configs_nil (b : CDict) : merge_configs b [] = b := by
  rw [merge_configs]

theorem merge_configs_cons_dict {b : CDict} {k : String} {v : CVal} {d1 d2 : CDict}
    (hbd : bothDicts (lookupKey b k) v = some (d1, d2)) (rest : CDict) :
    merge_configs b ((k, v) :: rest) =
      merge_configs (setKey b k (.dict (merge_configs d1 d2))) rest := by
  rw [merge_configs]
  split <;> simp_all

theorem merge_configs_cons_other {b : CDict} {k : String} {v : CVal}
    (hbd : bothDicts (lookupKey b k) v = none) (rest : CDict) :
    merge_configs b ((k, v) :: rest) = merge_configs (setKey b k v) rest := by
  rw [merge_configs]
  split <;> simp_all

theorem lookupKey_setKey_self (d : CDict) (k : String) (v : CVal) :
    lookupKey (setKey d k v) k = some v := by
  induction d with
  | nil => simp [setKey, lookupKey]
  | cons p rest ih =>
    obtain ⟨k', v'⟩ := p
    by_cases h : k' = k
    · simp [setKey, h, lookupKey]
    · simp [setKey, h, lookupKey, ih]

theorem lookupKey_setKey_ne (d : CDict) (k k2 : String) (v : CVal) (h : k2 ≠ k) :
    lookupKey (setKey d k v) k2 = lookupKey d k2 := by
  have h' : k ≠ k2 := fun e => h e.symm
  induction d with
  | nil => simp [setKey, lookupKey, h']
  | cons p rest ih =>
    obtain ⟨k', v'⟩ := p
    simp only [setKey]
    by_cases hk : k' = k
    · subst hk
      simp [lookupKey, h']
    · simp only [if_neg hk, lookupKey]
      by_cases hk2 : k' = k2
      · simp [hk2]
      · simp [hk2, ih]

/-- The per-key update performed for one override item is always a `setKey`
at that key (with some value). -/
theorem mergeStep_is_setKey (b : CDict) (k : String) (v : CVal) (rest : CDict) :
    ∃ x, merge_configs b ((k, v) :: rest) = merge_configs (setKey b k x) rest := by
  cases hbd : bothDicts (lookupKey b k) v with
  | none => exact ⟨v, merge_configs_cons_other hbd rest⟩
  | some p =>
    obtain ⟨d1, d2⟩ := p
    exact ⟨.dict (merge_configs d1 d2), merge_configs_cons_dict hbd rest⟩

/-- Keys not named by the override keep their base binding. -/
theorem lookupKey_merge_of_notMem (ov : CDict) : ∀ (b : CDict) (k : String),
    (∀ p ∈ ov, p.1 ≠ k) → lookupKey (merge_configs b ov) k = lookupKey b k := by
  induction ov with
  | nil => intro b k _; rw [merge_configs_nil]
  | cons p rest ih =>
    obtain ⟨k1, v1⟩ := p
    intro b k h
    have hk1 : k1 ≠ k := h (k1, v1) (by simp)
    obtain ⟨x, hx⟩ := mergeStep_is_setKey b k1 v1 rest
    rw [hx, ih _ _ (fun p hp => h p (by simp [hp])),
      lookupKey_setKey_ne _ _ _ _ (fun e => hk1 e.symm)]

/-- Characterization of `merge_configs` at every key (for an override with
distinct keys, as produced by `tomllib`): a key held as a dict on both sides
is merged recursively, any other overridden key is replaced outright, and
keys absent from the override keep the base value. -/
theorem lookupKey_merge_configs (ov : CDict) : ∀ (b : CDict) (k : String),
    (ov.map Prod.fst).Nodup →
    lookupKey (merge_configs b ov) k =
      match lookupKey ov k with
      | none => lookupKey b k
      | some v =>
        match bothDicts (lookupKey b k) v with
        | some (d1, d2) => some (.dict (merge_configs d1 d2))
        | none => some v := by
  induction ov with
  | nil =>
    intro b k _
    rw [merge_configs_nil]
    simp [lookupKey]
  | cons p rest ih =>
    obtain ⟨k1, v1⟩ := p
    intro b k hnd
    rw [List.map_cons, List.nodup_cons] at hnd
    obtain ⟨hk1rest, hndrest⟩ := hnd
    by_cases hk : k1 = k
    · subst hk
      have hnot : ∀ p ∈ rest, p.1 ≠ k1 := by
        intro p hp he
        exact hk1rest (List.mem_map.mpr ⟨p, hp, he⟩)
      cases hbd : bothDicts (lookupKey b k1) v1 with
      | some q =>
        obtain ⟨d1, d2⟩ := q
        rw [merge_configs_cons_dict hbd rest,
          lookupKey_merge_of_notMem rest _ k1 hnot, lookupKey_setKey_self]
        simp [lookupKey, hbd]
      | none =>
        rw [merge_configs_cons_other hbd rest,
          lookupKey_merge_of_notMem rest _ k1 hnot, lookupKey_setKey_self]
        simp [lookupKey, hbd]
    · have hov : lookupKey ((k1, v1) :: rest) k = lookupKey rest k := by
        simp [lookupKey, hk]
      rw [hov]
      obtain ⟨x, hx⟩ := mergeStep_is_setKey b k1 v1 rest
      rw [hx, ih _ k hndrest,
        lookupKey_setKey_ne _ _ _ _ (fun e => hk e.symm)]

/-- C4: `merge_configs` is key-wise recursive — a key bound to a dict in both
the accumulator and the override is merged recursively, any other overridden
key is replaced outright, and sibling keys of the accumulator are preserved;
`load_config` layers defaults, then the global file, then the repo-local
file, then CLI overrides, so `branches.auto_prefix` set in both global and
local config takes the local value. -/
theorem merge_configs_recursive_merge_and_precedence :
    (∀ (b ov : CDict) (k : String), (ov.map Prod.fst).Nodup →
      lookupKey (merge_configs b ov) k =
        match lookupKey ov k with
        | none => lookupKey b k
        | some v =>
          match bothDicts (lookupKey b k) v with
          | some (d1, d2) => some (.dict (merge_configs d1 d2))
          | none => some v) ∧
    configGet2 (load_config
        (some [("branches", .dict [("auto_prefix", .str "global/")])])
        (some [("branches", .dict [("auto_prefix", .str "local/")])])
        none) "branches" "auto_prefix" = some (.str "local/") := by
  refine ⟨fun b ov k h => lookupKey_merge_configs ov b k h, ?_⟩
  have h1 : lookupKey (merge_configs get_default_config
      [("branches", CVal.dict [("auto_prefix", CVal.str "global/")])]) "branches" =
      some (CVal.dict (merge_configs [("auto_prefix", CVal.str "")]
        [("auto_prefix", CVal.str "global/")])) := by
    have h := lookupKey_merge_configs
      [("branches", CVal.dict [("auto_prefix", CVal.str "global/")])]
      get_default_config "branches" (by simp)
    exact h.trans rfl
  have h2 : merge_configs [("auto_prefix", CVal.str "")]
      [("auto_prefix", CVal.str "global/")] = [("auto_prefix", CVal.str "global/")] := by
    have hbd : bothDicts (lookupKey [("auto_prefix", CVal.str "")] "auto_prefix")
        (CVal.str "global/") = none := rfl
    rw [merge_configs_cons_other hbd, merge_configs_nil]
    rfl
  rw [h2] at h1
  have h3 : lookupKey (merge_configs (merge_configs get_default_config
      [("branches", CVal.dict [("auto_prefix", CVal.str "global/")])])
      [("branches", CVal.dict [("auto_prefix", CVal.str "local/")])]) "branches" =
      some (CVal.dict (merge_configs [("auto_prefix", CVal.str "global/")]
        [("auto_prefix", CVal.str "local/")])) := by
    have h := lookupKey_merge_configs
      [("branches", CVal.dict [("auto_prefix", CVal.str "local/")])]
      (merge_configs get_default_config
        [("branches", CVal.dict [("auto_prefix", CVal.str "global/")])])
      "branches" (by simp)
    rw [h1] at h
    exact h.trans rfl
  have h4 : merge_configs [("auto_prefix", CVal.str "global/")]
      [("auto_prefix", CVal.str "local/")] = [("auto_prefix", CVal.str "local/")] := by
    have hbd : bothDicts (lookupKey [("auto_prefix", CVal.str "global/")] "auto_prefix")
        (CVal.str "local/") = none := rfl
    rw [merge_configs_cons_other hbd, merge_configs_nil]
    rfl
  rw [h4] at h3
  show configGet2 (merge_configs (merge_configs get_default_config
      [("branches", CVal.dict [("auto_prefix", CVal.str "global/")])])
      [("branches", CVal.dict [("auto_prefix", CVal.str "local/")])])
      "branches" "auto_prefix" = some (CVal.str "local/")
  rw [configGet2, h3]
  rfl

/-- Witness for C4: a key bound to dicts on both sides is merged recursively
(the sibling key survives, the overridden key is replaced). -/
theorem merge_configs_recursive_merge_witness :
    lookupKey (merge_configs
        [("paths", .dict [("worktree_root", .str "/old"), ("template", .str "old")])]
        [("paths", .dict [("worktree_root", .str "/new")])]) "paths" =
      some (.dict [("worktree_root", .str "/new"), ("template", .str "old")]) := by
  have h := merge_configs_recursive_merge_and_precedence.1
    [("paths", .dict [("worktree_root", .str "/old"), ("template", .str "old")])]
    [("paths", .dict [("worktree_root", .str "/new")])]
    "paths" (by simp)
  have h2 : merge_configs [("worktree_root", CVal.str "/old"), ("template", CVal.str "old")]
      [("worktree_root", CVal.str "/new")] =
      [("worktree_root", CVal.str "/new"), ("template", CVal.str "old")] := by
    have hbd : bothDicts
        (lookupKey [("worktree_root", CVal.str "/old"), ("template", CVal.str "old")]
          "worktree_root") (CVal.str "/new") = none := rfl
    rw [merge_configs_cons_other hbd, merge_configs_nil]
    rfl
  exact (h.trans rfl).trans (congrArg (fun d => some (CVal.dict d)) h2)

/-! ### Frame property of the heap merge -/
/-- Both heap functions only ever extend the store. -/
theorem heapMergeExtends : ∀ fuel : Nat,
    (∀ σ bAddr oAddr σ' r, merge_configs_heap fuel σ bAddr oAddr = some (σ', r) →
      σ <+: σ' ∧ σ.length ≤ r) ∧
    (∀ σ res ov σ' res', mergeItemsH fuel σ res ov = some (σ', res') → σ <+: σ') := by
  intro fuel
  induction fuel with
  | zero =>
    constructor
    · intro σ bAddr oAddr σ' r h
      simp [merge_configs_heap] at h
    · intro σ res ov σ' res' h
      simp [mergeItemsH] at h
  | succ fuel ih =>
    constructor
    · intro σ bAddr oAddr σ' r h
      simp only [merge_configs_heap] at h
      split at h
      · split at h
        case _ σ2 entries heq =>
          obtain ⟨rfl, rfl⟩ : σ2 ++ [HObj.dict entries] = σ' ∧ σ2.length = r := by
            cases h; exact ⟨rfl, rfl⟩
          have hpre : σ <+: σ2 := ih.2 σ _ _ σ2 entries heq
          exact ⟨hpre.trans (List.prefix_append σ2 [HObj.dict entries]),
            hpre.length_le⟩
        case _ => cases h
      · cases h
    · intro σ res ov σ' res' h
      match ov with
      | [] =>
        simp only [mergeItemsH] at h
        cases h
        exact List.prefix_refl σ
      | (k, a) :: rest =>
        simp only [mergeItemsH] at h
        split at h
        · split at h
          · split at h
            case _ σ2 addr heq =>
              have h1 : σ <+: σ2 := (ih.1 σ _ _ σ2 addr heq).1
              exact h1.trans (ih.2 σ2 _ _ σ' res' h)
            case _ => cases h
          · exact ih.2 σ _ _ σ' res' h
        · exact ih.2 σ _ _ σ' res' h

/-- C10: the heap-level `merge_configs` leaves every pre-existing object of
the store — in particular `base`, `override`, and every nested mapping
reachable from them — unchanged, and returns a freshly allocated dict. -/
theorem merge_configs_heap_no_mutation (fuel : Nat) (σ : Store) (bAddr oAddr : Nat)
    (σ' : Store) (r : Nat) (h : merge_configs_heap fuel σ bAddr oAddr = some (σ', r)) :
    (∀ a, a < σ.length → σ'[a]? = σ[a]?) ∧ σ.length ≤ r := by
  obtain ⟨⟨t, ht⟩, hr⟩ := (heapMergeExtends fuel).1 σ bAddr oAddr σ' r h
  refine ⟨fun a ha => ?_, hr⟩
  rw [← ht]
  exact List.getElem?_append_left ha

/-- Witness for C10: merging two concrete one-key dicts (addresses 0 and 2)
extends the store with one fresh dict and leaves all four original objects
in place. -/
theorem merge_configs_heap_no_mutation_witness :
    (∀ a, a < 4 →
      ([HObj.dict [("a", 1)], HObj.str "x", HObj.dict [("a", 3)], HObj.str "y",
        HObj.dict [("a", 3)]] : Store)[a]? =
      ([HObj.dict [("a", 1)], HObj.str "x", HObj.dict [("a", 3)], HObj.str "y"] :
        Store)[a]?) ∧ (4 : Nat) ≤ 4 := by
  exact merge_configs_heap_no_mutation 5
    [HObj.dict [("a", 1)], HObj.str "x", HObj.dict [("a", 3)], HObj.str "y"]
    0 2
    [HObj.dict [("a", 1)], HObj.str "x", HObj.dict [("a", 3)], HObj.str "y",
      HObj.dict [("a", 3)]]
    4 rfl

/-! ### Proof infrastructure for the template renderer -/
theorem takeNameRest_join : ∀ cs : List Char,
    (takeNameRest cs).1 ++ (takeNameRest cs).2 = cs := by
  intro cs
  induction cs with
  | nil => rfl
  | cons c cs ih =>
    by_cases h : isVarCont c = true
    · simp [takeNameRest, h, ih]
    · simp [takeNameRest, h]

theorem takeNameRest_length : ∀ cs : List Char,
    (takeNameRest cs).2.length ≤ cs.length := by
  intro cs
  induction cs with
  | nil => simp [takeNameRest]
  | cons c cs ih =>
    by_cases h : isVarCont c = true
    · simp only [takeNameRest, if_pos h]
      exact ih.trans (by simp)
    · simp [takeNameRest, h]

theorem takeName1_join {cs nm rest : List Char} (h : takeName1 cs = some (nm, rest)) :
    nm ++ rest = cs := by
  cases cs with
  | nil => simp [takeName1] at h
  | cons c cs =>
    by_cases hs : isVarStart c = true
    · simp only [takeName1, if_pos hs, Option.some.injEq, Prod.mk.injEq] at h
      obtain ⟨h1, h2⟩ := h
      rw [← h1, ← h2]
      simpa using takeNameRest_join cs
    · simp [takeName1, hs] at h

theorem takeName1_length {cs nm rest : List Char} (h : takeName1 cs = some (nm, rest)) :
    rest.length < cs.length := by
  cases cs with
  | nil => simp [takeName1] at h
  | cons c cs =>
    by_cases hs : isVarStart c = true
    · simp only [takeName1, if_pos hs, Option.some.injEq, Prod.mk.injEq] at h
      have := takeNameRest_length cs
      rw [h.2] at this
      simpa using Nat.lt_succ_of_le this
    · simp [takeName1, hs] at h

/-- The tokenizer loses no text: rejoining all fragments gives the template
back. -/
theorem scanFuel_join : ∀ (fuel : Nat) (cs : List Char), cs.length ≤ fuel →
    joinSegs (scanFuel fuel cs) = cs := by
  intro fuel
  induction fuel with
  | zero =>
    intro cs h
    rw [Nat.le_zero, List.length_eq_zero] at h
    subst h
    rfl
  | succ fuel ih =>
    intro cs h
    cases cs with
    | nil => rfl
    | cons c cs =>
      simp only [List.length_cons, Nat.succ_le_succ_iff] at h
      by_cases hc : c = '$'
      · subst hc
        cases ht : takeName1 cs with
        | some p =>
          obtain ⟨nm, rest⟩ := p
          simp only [scanFuel, if_pos rfl, ht, joinSegs, segText]
          rw [ih rest (Nat.le_of_lt (Nat.lt_of_lt_of_le (takeName1_length ht) h)),
            ← takeName1_join ht]
          simp
        | none =>
          simp only [scanFuel, if_pos rfl, ht, joinSegs, segText]
          rw [ih cs h]
          rfl
      · simp only [scanFuel, if_neg hc, joinSegs, segText]
        rw [ih cs h]
        simp

/-- With `allow_unknown`, substitution never fails. -/
theorem renderSegs_allow_total : ∀ (segs : List Segment) (ctx : List (String × String)),
    ∃ r, renderSegs segs ctx true = .ok r := by
  intro segs ctx
  induction segs with
  | nil => exact ⟨[], rfl⟩
  | cons s rest ih =>
    obtain ⟨r, hr⟩ := ih
    cases s with
    | lit c => exact ⟨c :: r, by simp [renderSegs, hr]⟩
    | tok nm =>
      cases hl : ctxLookup ctx (String.mk nm) with
      | some v => exact ⟨v.data ++ r, by simp [renderSegs, hl, hr]⟩
      | none => exact ⟨'$' :: (nm ++ r), by simp [renderSegs, hl, hr]⟩

/-- With `allow_unknown` and an empty context, every token is preserved
verbatim: the output is the input text. -/
theorem renderSegs_empty_ctx : ∀ segs : List Segment,
    renderSegs segs [] true = .ok (joinSegs segs) := by
  intro segs
  induction segs with
  | nil => rfl
  | cons s rest ih =>
    cases s with
    | lit c => simp [renderSegs, ih, joinSegs, segText]
    | tok nm => simp [renderSegs, ctxLookup, ih, joinSegs, segText]

/-- A token absent from the context makes strict substitution fail. -/
theorem renderSegs_unknown_error : ∀ (segs : List Segment) (ctx : List (String × String)),
    (∃ nm, Segment.tok nm ∈ segs ∧ ctxLookup ctx (String.mk nm) = none) →
    ∃ e, renderSegs segs ctx false = .error e := by
  intro segs ctx h
  induction segs with
  | nil =>
    obtain ⟨nm, hmem, _⟩ := h
    simp at hmem
  | cons s rest ih =>
    obtain ⟨nm, hmem, hnone⟩ := h
    cases s with
    | lit c =>
      have hrest : Segment.tok nm ∈ rest := by
        rcases List.mem_cons.mp hmem with h1 | h1
        · cases h1
        · exact h1
      obtain ⟨e, he⟩ := ih ⟨nm, hrest, hnone⟩
      exact ⟨e, by simp [renderSegs, he]⟩
    | tok nm2 =>
      cases hl : ctxLookup ctx (String.mk nm2) with
      | none =>
        exact ⟨"Unknown template variable: $" ++ String.mk nm2, by simp [renderSegs, hl]⟩
      | some v =>
        have hrest : Segment.tok nm ∈ rest := by
          rcases List.mem_cons.mp hmem with h1 | h1
          · obtain rfl : nm = nm2 := by cases h1; rfl
            rw [hl] at hnone
            cases hnone
          · exact h1
        obtain ⟨e, he⟩ := ih ⟨nm, hrest, hnone⟩
        exact ⟨e, by simp [renderSegs, hl, he]⟩

/-- C6: rendering a template whose token has no context entry fails with the
unknown-variable `ValueError` when `allow_unknown` is false, and preserves
unknown token text unchanged (never failing) when `allow_unknown` is true; in
particular `render("$REPO_ROOT/$UNKNOWN_VAR", {REPO_ROOT: "/repo"})` fails
strictly and yields `/repo/$UNKNOWN_VAR` permissively. -/
theorem render_path_template_unknown_variable :
    (∀ (template : String) (context : List (String × String)),
      (∃ nm ∈ templateTokens template, ctxLookup context (String.mk nm) = none) →
      ∃ e, render_path_template template context false = .error e) ∧
    (∀ (template : String) (context : List (String × String)),
      ∃ s, render_path_template template context true = .ok s) ∧
    (∀ template : String, render_path_template template [] true = .ok template) ∧
    render_path_template "$REPO_ROOT/$UNKNOWN_VAR" [("REPO_ROOT", "/repo")] false =
      .error "Unknown template variable: $UNKNOWN_VAR" ∧
    render_path_template "$REPO_ROOT/$UNKNOWN_VAR" [("REPO_ROOT", "/repo")] true =
      .ok "/repo/$UNKNOWN_VAR" := by
  refine ⟨?_, ?_, ?_, rfl, rfl⟩
  · intro template context h
    obtain ⟨nm, hmem, hnone⟩ := h
    have hmem2 : Segment.tok nm ∈ scanTemplate template.data := by
      simp only [templateTokens, List.mem_filterMap] at hmem
      obtain ⟨s, hs, hmatch⟩ := hmem
      cases s with
      | lit c => simp at hmatch
      | tok nm2 =>
        obtain rfl : nm2 = nm := by simpa using hmatch
        exact hs
    obtain ⟨e, he⟩ := renderSegs_unknown_error _ context ⟨nm, hmem2, hnone⟩
    exact ⟨e, by simp [render_path_template, he]⟩
  · intro template context
    obtain ⟨r, hr⟩ := renderSegs_allow_total (scanTemplate template.data) context
    exact ⟨String.mk r, by simp [render_path_template, hr]⟩
  · intro template
    have h := renderSegs_empty_ctx (scanTemplate template.data)
    have hj : joinSegs (scanTemplate template.data) = template.data :=
      scanFuel_join template.data.length template.data (Nat.le_refl _)
    rw [hj] at h
    simp only [render_path_template, h]

/-- Witness for C6: a template referencing `$WT_ROOT` against an empty
context fails in strict mode. -/
theorem render_path_template_unknown_variable_witness :
    ∃ e, render_path_template "$WT_ROOT/x" [] false = .error e :=
  render_path_template_unknown_variable.1 "$WT_ROOT/x" [] (by decide)

/-! ### Proof infrastructure for hook discovery -/
theorem charLt_asymm : ∀ as bs : List Char, charLt as bs = true → charLt bs as = false := by
  intro as
  induction as with
  | nil =>
    intro bs h
    cases bs with
    | nil => simp [charLt] at h
    | cons b bs => simp [charLt]
  | cons a as ih =>
    intro bs h
    cases bs with
    | nil => simp [charLt] at h
    | cons b bs =>
      by_cases hab : a < b
      · simp [charLt, hab, lt_asymm hab]
      · by_cases hba : b < a
        · simp [charLt, hab, hba] at h
        · simp only [charLt, if_neg hab, if_neg hba] at h
          simp only [charLt, if_neg hba, if_neg hab]
          exact ih bs h

theorem charLt_conn : ∀ as bs : List Char,
    charLt as bs = false → charLt bs as = false → as = bs := by
  intro as
  induction as with
  | nil =>
    intro bs h1 _
    cases bs with
    | nil => rfl
    | cons b bs => simp [charLt] at h1
  | cons a as ih =>
    intro bs h1 h2
    cases bs with
    | nil => simp [charLt] at h2
    | cons b bs =>
      by_cases hab : a < b
      · simp [charLt, hab] at h1
      · by_cases hba : b < a
        · simp [charLt, hba] at h2
        · have hab' : a = b := le_antisymm (not_lt.mp hba) (not_lt.mp hab)
          subst hab'
          simp only [charLt, if_neg (lt_irrefl a)] at h1 h2
          rw [ih bs h1 h2]

theorem charLt_trans : ∀ as bs cs : List Char,
    charLt as bs = true → charLt bs cs = true → charLt as cs = true := by
  intro as
  induction as with
  | nil =>
    intro bs cs h1 h2
    cases bs with
    | nil => simp [charLt] at h1
    | cons b bs =>
      cases cs with
      | nil => simp [charLt] at h2
      | cons c cs => simp [charLt]
  | cons a as ih =>
    intro bs cs h1 h2
    cases bs with
    | nil => simp [charLt] at h1
    | cons b bs =>
      cases cs with
      | nil => simp [charLt] at h2
      | cons c cs =>
        by_cases hab : a < b
        · by_cases hbc : b < c
          · simp [charLt, lt_trans hab hbc]
          · by_cases hcb : c < b
            · simp [charLt, hbc, hcb] at h2
            · have hbc' : b = c := le_antisymm (not_lt.mp hcb) (not_lt.mp hbc)
              subst hbc'
              simp [charLt, hab]
        · by_cases hba : b < a
          · simp [charLt, hab, hba] at h1
          · have hab' : a = b := le_antisymm (not_lt.mp hba) (not_lt.mp hab)
            subst hab'
            simp only [charLt, if_neg (lt_irrefl a)] at h1
            by_cases hac : a < c
            · simp [charLt, hac]
            · by_cases hca : c < a
              · simp [charLt, hac, hca] at h2
              · have hac' : a = c := le_antisymm (not_lt.mp hca) (not_lt.mp hac)
                subst hac'
                simp only [charLt, if_neg (lt_irrefl a)] at h2 ⊢
                exact ih bs cs h1 h2

theorem entryLe_total (a b : DirEntry) : entryLe a b = true ∨ entryLe b a = true := by
  cases hba : charLt b.name.data a.name.data
  · left
    simp [entryLe, nameLe, hba]
  · right
    simp [entryLe, nameLe, charLt_asymm _ _ hba]

theorem entryLe_trans {a b c : DirEntry}
    (h1 : entryLe a b = true) (h2 : entryLe b c = true) : entryLe a c = true := by
  simp only [entryLe, nameLe, Bool.not_eq_true'] at h1 h2 ⊢
  cases hca : charLt c.name.data a.name.data
  · rfl
  · cases hbc : charLt b.name.data c.name.data
    · have he := charLt_conn _ _ hbc h2
      rw [he] at h1
      rw [h1] at hca
      cases hca
    · have := charLt_trans _ _ _ hbc hca
      rw [this] at h1
      cases h1

theorem orderedInsertB_perm (e : DirEntry) (l : List DirEntry) :
    List.Perm (orderedInsertB e l) (e :: l) := by
  induction l with
  | nil => exact List.Perm.refl _
  | cons x xs ih =>
    by_cases h : entryLe e x = true
    · simp only [orderedInsertB, if_pos h]
      exact List.Perm.refl _
    · simp only [orderedInsertB, if_neg h]
      exact (ih.cons x).trans (List.Perm.swap e x xs)

theorem insertionSortB_perm (l : List DirEntry) :
    List.Perm (insertionSortB l) l := by
  induction l with
  | nil => exact List.Perm.refl _
  | cons x xs ih =>
    exact (orderedInsertB_perm x (insertionSortB xs)).trans (ih.cons x)

theorem pairwise_orderedInsertB (e : DirEntry) (l : List DirEntry)
    (hl : l.Pairwise fun a b => entryLe a b = true) :
    (orderedInsertB e l).Pairwise fun a b => entryLe a b = true := by
  induction l with
  | nil => simp [orderedInsertB]
  | cons x xs ih =>
    rcases List.pairwise_cons.mp hl with ⟨hx, hxs⟩
    by_cases h : entryLe e x = true
    · simp only [orderedInsertB, if_pos h]
      refine List.pairwise_cons.mpr ⟨?_, hl⟩
      intro y hy
      rcases List.mem_cons.mp hy with rfl | hy'
      · exact h
      · exact entryLe_trans h (hx y hy')
    · simp only [orderedInsertB, if_neg h]
      refine List.pairwise_cons.mpr ⟨?_, ih hxs⟩
      intro y hy
      have hy2 : y = e ∨ y ∈ xs := by
        have := (orderedInsertB_perm e xs).mem_iff.mp hy
        simpa using this
      rcases hy2 with rfl | hy'
      · rcases entryLe_total y x with h1 | h1
        · exact absurd h1 h
        · exact h1
      · exact hx y hy'

theorem pairwise_insertionSortB (l : List DirEntry) :
    (insertionSortB l).Pairwise fun a b => entryLe a b = true := by
  induction l with
  | nil => simp [insertionSortB]
  | cons x xs ih => exact pairwise_orderedInsertB x (insertionSortB xs) ih

/-- C5: hook discovery collects exactly the regular executable files of each
hook directory (as a permutation of the filtered listing), sorted by
code-point file-name order within each tier, with all local-tier hooks
concatenated before all global-tier hooks; on the spec's example the
execution order is `01-a.sh, 02-b.sh, 00-z.sh`. -/
theorem discover_hooks_order_and_content :
    (∀ (d : String) (es : List DirEntry),
      List.Perm (collect_executable_hooks d es)
        ((es.filter fun e => e.isFile && e.isExec).map
          fun e => { dir := d, name := e.name : HookPath })) ∧
    (∀ (d : String) (es : List DirEntry),
      (collect_executable_hooks d es).Pairwise fun p q => nameLe p.name q.name = true) ∧
    (∀ localDir globalDir : Option (String × List DirEntry),
      discover_hooks localDir globalDir = collectOpt localDir ++ collectOpt globalDir) ∧
    discover_hooks
        (some ("local", [{ name := "02-b.sh", isFile := true, isExec := true },
                         { name := "01-a.sh", isFile := true, isExec := true }]))
        (some ("global", [{ name := "00-z.sh", isFile := true, isExec := true }])) =
      [{ dir := "local", name := "01-a.sh" }, { dir := "local", name := "02-b.sh" },
       { dir := "global", name := "00-z.sh" }] := by
  refine ⟨?_, ?_, fun _ _ => rfl, by decide⟩
  · intro d es
    exact ((insertionSortB_perm es).filter _).map _
  · intro d es
    have h := (pairwise_insertionSortB es).filter (fun e => e.isFile && e.isExec)
    rw [collect_executable_hooks, List.pairwise_map]
    exact h

/-! ### Theorems about the `cmd_new` template contexts (claim C3) -/
/-- Counterexample to C3: with `branches.auto_prefix = "wt/"` configured and
branch `feat`, the context used to render the destination path (built inside
`resolve_worktree_path` from the un-prefixed folder branch name) and the
context later exposed to the post-create hooks (rebuilt from the prefixed git
branch name) disagree on `BRANCH_NAME` — even with identical clock values —
so the TemplateContext is not built once with identical values. -/
theorem cmd_new_context_built_twice_counterexample :
    ∃ ctx1 ctx2,
      cmdNewPathContext "/home/u/repo" "feat" "origin/main"
        { worktree_root := "", worktree_path_template := "$WT_ROOT/$BRANCH_NAME" }
        "2026-10-12" "12:00:00" = .ok ctx1 ∧
      cmdNewHookContext "/home/u/repo" "feat" "origin/main" "wt/"
        { worktree_root := "", worktree_path_template := "$WT_ROOT/$BRANCH_NAME" }
        "2026-10-12" "12:00:00" "2026-10-12" "12:00:00" = .ok ctx2 ∧
      ctxLookup ctx1 "BRANCH_NAME" ≠ ctxLookup ctx2 "BRANCH_NAME" := by
  refine ⟨_, _, rfl, rfl, ?_⟩
  decide

/-- C3 (amended): `cmd_new` builds the template context twice. The
destination path is rendered with a context holding the original branch name
and no `WORKTREE_PATH`; the hook context is rebuilt with the auto-prefixed
git branch name, the rendered worktree path, and a fresh clock value. The two
contexts agree on `REPO_ROOT`, `REPO_NAME`, `WT_ROOT` and `SOURCE_BRANCH`,
but `BRANCH_NAME` is `branch` in the first and `autoPrefixed ap branch` in
the second (these differ whenever a non-empty prefix is configured and the
branch does not already carry it), and the date/time values are those of each
construction site. -/
theorem cmd_new_contexts_amended :
    ∀ (repoRoot branch sourceBranch ap : String) (cfg : PathsConfig)
      (d1 t1 d2 t2 : String) (ctx1 ctx2 : List (String × String)),
      cmdNewPathContext repoRoot branch sourceBranch cfg d1 t1 = .ok ctx1 →
      cmdNewHookContext repoRoot branch sourceBranch ap cfg d1 t1 d2 t2 = .ok ctx2 →
      resolve_worktree_path repoRoot branch sourceBranch cfg d1 t1 =
        render_path_template cfg.worktree_path_template ctx1 false ∧
      ctxLookup ctx1 "BRANCH_NAME" = some branch ∧
      ctxLookup ctx2 "BRANCH_NAME" = some (autoPrefixed ap branch) ∧
      ctxLookup ctx1 "WORKTREE_PATH" = none ∧
      (∃ p, ctxLookup ctx2 "WORKTREE_PATH" = some p) ∧
      ctxLookup ctx1 "REPO_ROOT" = some repoRoot ∧
      ctxLookup ctx2 "REPO_ROOT" = some repoRoot ∧
      ctxLookup ctx1 "REPO_NAME" = ctxLookup ctx2 "REPO_NAME" ∧
      ctxLookup ctx1 "WT_ROOT" = ctxLookup ctx2 "WT_ROOT" ∧
      ctxLookup ctx1 "SOURCE_BRANCH" = some sourceBranch ∧
      ctxLookup ctx2 "SOURCE_BRANCH" = some sourceBranch ∧
      ctxLookup ctx1 "DATE_ISO" = some d1 ∧ ctxLookup ctx2 "DATE_ISO" = some d2 ∧
      ctxLookup ctx1 "TIME_ISO" = some t1 ∧ ctxLookup ctx2 "TIME_ISO" = some t2 := by
  intro repoRoot branch sourceBranch ap cfg d1 t1 d2 t2 ctx1 ctx2 h1 h2
  cases hroot : resolve_worktree_root repoRoot cfg with
  | error e =>
    simp only [cmdNewPathContext, hroot, bind, Except.bind] at h1
    exact Except.noConfusion h1
  | ok wtRoot =>
    simp only [cmdNewPathContext, hroot, bind, Except.bind, pure, Except.pure,
      Except.ok.injEq] at h1
    cases hpath : resolve_worktree_path repoRoot branch sourceBranch cfg d1 t1 with
    | error e =>
      simp only [cmdNewHookContext, hpath, bind, Except.bind] at h2
      exact Except.noConfusion h2
    | ok wtp =>
      simp only [cmdNewHookContext, hpath, hroot, bind, Except.bind, pure,
        Except.pure, Except.ok.injEq] at h2
      subst h1
      subst h2
      refine ⟨?_, rfl, rfl, rfl, ⟨wtp, rfl⟩, rfl, rfl, rfl, rfl, rfl, rfl,
        rfl, rfl, rfl, rfl⟩
      rw [← hpath]
      unfold resolve_worktree_path
      rw [hroot]
      rfl

/-- Witness for the amended C3 on the counterexample input: the path context
carries `feat`, the hook context carries `wt/feat`. -/
theorem cmd_new_contexts_amended_witness :
    ∃ ctx1 ctx2,
      cmdNewPathContext "/home/u/repo" "feat" "origin/main"
        { worktree_root := "", worktree_path_template := "$WT_ROOT/$BRANCH_NAME" }
        "2026-10-12" "12:00:00" = .ok ctx1 ∧
      cmdNewHookContext "/home/u/repo" "feat" "origin/main" "wt/"
        { worktree_root := "", worktree_path_template := "$WT_ROOT/$BRANCH_NAME" }
        "2026-10-12" "12:00:00" "2026-10-13" "09:30:00" = .ok ctx2 ∧
      ctxLookup ctx1 "BRANCH_NAME" = some "feat" ∧
      ctxLookup ctx2 "BRANCH_NAME" = some "wt/feat" := by
  refine ⟨_, _, rfl, rfl, ?_, ?_⟩
  · exact (cmd_new_contexts_amended "/home/u/repo" "feat" "origin/main" "wt/"
      { worktree_root := "", worktree_path_template := "$WT_ROOT/$BRANCH_NAME" }
      "2026-10-12" "12:00:00" "2026-10-13" "09:30:00" _ _ rfl rfl).2.1
  · have h := (cmd_new_contexts_amended "/home/u/repo" "feat" "origin/main" "wt/"
      { worktree_root := "", worktree_path_template := "$WT_ROOT/$BRANCH_NAME" }
      "2026-10-12" "12:00:00" "2026-10-13" "09:30:00" _ _ rfl rfl).2.2.1
    exact h.trans (by decide)

/-! ### Theorems about the new-worktree workflow (claims C7, C9) -/
/-- C7: invoking the new-worktree workflow for a branch that already has a
worktree fails with `BranchAlreadyCheckedOut` before any mutating step: the
effect trace is the initial fetch alone — no directory is removed or created,
no branch is created, no `worktree add` runs, no hook runs. -/
theorem cmd_new_branch_already_checked_out (w : GitWorld) (cfg : CmdConfig)
    (a : CmdNewArgs) (repoRoot d t p : String)
    (hsrc : w.remoteRefs.contains (resolveSource w a) = true)
    (hwt : worktree_path_for_branch (autoPrefixed cfg.autoPrefixCfg a.branch)
      w.worktrees = some p) :
    cmd_new w cfg a repoRoot d t = (.error "BranchAlreadyCheckedOut", [.fetch]) := by
  simp only [cmd_new, hsrc, hwt, Bool.not_true, Bool.false_eq_true, if_false]

/-- Witness for C7: a concrete world where `feat` is already checked out at
`/wt/feat`. -/
theorem cmd_new_branch_already_checked_out_witness :
    cmd_new
      { remoteRefs := ["origin/main"], localBranches := ["feat"],
        worktrees := [{ path := "/wt/feat", branch := some "feat", sha := "abc",
                        is_bare := false, locked := none }],
        existingDirs := [], emptyDirs := [], hooks := [], hookOk := fun _ => true }
      { paths := { worktree_root := "", worktree_path_template := "$WT_ROOT/$BRANCH_NAME" },
        autoPrefixCfg := "", continueOnError := false, vscodeCreate := false }
      { branch := "feat", from_branch := "origin/main", track := false, force := false }
      "/home/u/repo" "2026-10-12" "12:00:00" =
      (.error "BranchAlreadyCheckedOut", [.fetch]) := by
  exact cmd_new_branch_already_checked_out _ _ _ _ _ _ "/wt/feat" (by decide) (by decide)

/-- Every effect emitted by the hook loop is a `hookRun`. -/
theorem runHooks_effects_hookRun : ∀ (hooks : List String) (hookOk : String → Bool)
    (contErr : Bool) (x : Effect), x ∈ (runHooks hooks hookOk contErr).1 →
    ∃ n, x = .hookRun n := by
  intro hooks hookOk contErr
  induction hooks with
  | nil => intro x hx; simp [runHooks] at hx
  | cons y rest ih =>
    intro x hx
    by_cases hy : hookOk y = true
    · simp only [runHooks, if_pos hy] at hx
      rcases List.mem_cons.mp hx with rfl | h1
      · exact ⟨y, rfl⟩
      · exact ih x h1
    · by_cases hc : contErr = true
      · simp only [runHooks, if_neg hy, if_pos hc] at hx
        rcases List.mem_cons.mp hx with rfl | h1
        · exact ⟨y, rfl⟩
        · exact ih x h1
      · simp only [runHooks, if_neg hy, if_neg hc, List.mem_singleton] at hx
        exact ⟨y, hx⟩

/-- In fail-fast mode a failing hook makes the hook loop fail. -/
theorem runHooks_failfast (hooks : List String) (hookOk : String → Bool)
    (hfail : ∃ h ∈ hooks, hookOk h = false) :
    ∃ e, (runHooks hooks hookOk false).2 = .error e := by
  induction hooks with
  | nil =>
    obtain ⟨x, hx, _⟩ := hfail
    simp at hx
  | cons y rest ih =>
    obtain ⟨x, hx, hxf⟩ := hfail
    by_cases hy : hookOk y = true
    · have hxr : x ∈ rest := by
        rcases List.mem_cons.mp hx with rfl | h1
        · rw [hy] at hxf; cases hxf
        · exact h1
      obtain ⟨e, he⟩ := ih ⟨x, hxr, hxf⟩
      exact ⟨e, by simp only [runHooks, if_pos hy]; exact he⟩
    · exact ⟨"Hook failed: " ++ y, by simp [runHooks, hy]⟩

/-- Membership is preserved by a conditional right-extension. -/
theorem mem_ite_append {x : Effect} {l : List Effect} (t : List Effect) (c : Prop)
    [Decidable c] (h : x ∈ l) : x ∈ (if c then l ++ t else l) := by
  split
  · exact List.mem_append_left t h
  · exact h

/-- The finish phase always records the `worktree add` call in its trace. -/
theorem cmdNewFinish_worktreeAdd_mem (w : GitWorld) (cfg : CmdConfig)
    (a : CmdNewArgs) (gitBranch source wtPath : String) (es1 : List Effect) :
    ∃ cb, Effect.worktreeAdd wtPath gitBranch source cb ∈
      (cmdNewFinish w cfg a gitBranch source wtPath es1).2 := by
  refine ⟨!(w.localBranches.contains gitBranch), ?_⟩
  have h3 : Effect.worktreeAdd wtPath gitBranch source (!(w.localBranches.contains gitBranch)) ∈
      (es1 ++ [.mkdirParents (pathParent wtPath)]) ++
        [Effect.worktreeAdd wtPath gitBranch source (!(w.localBranches.contains gitBranch))] :=
    List.mem_append_right _ (by simp)
  have h4 := mem_ite_append [Effect.setUpstream gitBranch ("origin/" ++ gitBranch)]
    ((a.track && w.remoteRefs.contains ("origin/" ++ gitBranch)) = true) h3
  have h5 := mem_ite_append [Effect.vscodeWrite wtPath] (cfg.vscodeCreate = true) h4
  cases hr2 : (runHooks w.hooks w.hookOk cfg.continueOnError).2 with
  | ok u => simpa [cmdNewFinish, hr2] using List.mem_append_left _ h5
  | error e => simpa [cmdNewFinish, hr2] using List.mem_append_left _ h5

/-- With fail-fast hooks and a failing hook, the finish phase exits with an
error (after the worktree was created). -/
theorem cmdNewFinish_hook_error (w : GitWorld) (cfg : CmdConfig) (a : CmdNewArgs)
    (gitBranch source wtPath : String) (es1 : List Effect)
    (hcont : cfg.continueOnError = false)
    (hfail : ∃ h ∈ w.hooks, w.hookOk h = false) :
    ∃ e, (cmdNewFinish w cfg a gitBranch source wtPath es1).1 = .error e := by
  obtain ⟨e, he⟩ := runHooks_failfast w.hooks w.hookOk hfail
  rw [← hcont] at he
  refine ⟨e, ?_⟩
  simp only [cmdNewFinish, he]

/-- No execution of `cmd_new` ever records a worktree removal or a branch
deletion: the workflow has no rollback action at all. -/
theorem cmd_new_no_removal (w : GitWorld) (cfg : CmdConfig) (a : CmdNewArgs)
    (repoRoot d t : String) :
    ∀ x ∈ (cmd_new w cfg a repoRoot d t).2, benignEffect x := by
  intro x hmem
  simp only [cmd_new, cmdNewFinish] at hmem
  repeat' split at hmem
  all_goals
    simp only [List.mem_append, List.mem_cons, List.not_mem_nil, or_false] at hmem
  all_goals
    repeat' (rcases hmem with hmem | hmem)
  all_goals
    first
      | trivial
      | (subst hmem; trivial)
      | (obtain ⟨n, hn⟩ := runHooks_effects_hookRun _ _ _ _ hmem
         subst hn
         trivial)

/-- C9: when every validation passes and a post-create hook fails under
fail-fast mode (`continue_on_error = false`), `cmd_new` terminates with an
error, yet its effect trace still contains the `worktree add` that created
the worktree and contains no worktree removal and no branch deletion — the
created worktree is left in place as the terminal state. -/
theorem cmd_new_hook_failfast_no_rollback
    (w : GitWorld) (cfg : CmdConfig) (a : CmdNewArgs) (repoRoot d t wtPath : String)
    (hsrc : w.remoteRefs.contains (resolveSource w a) = true)
    (hwt : worktree_path_for_branch (autoPrefixed cfg.autoPrefixCfg a.branch)
      w.worktrees = none)
    (hpath : resolve_worktree_path repoRoot a.branch (resolveSource w a) cfg.paths d t =
      .ok wtPath)
    (hdir : w.existingDirs.contains wtPath = false)
    (hcont : cfg.continueOnError = false)
    (hfail : ∃ h ∈ w.hooks, w.hookOk h = false) :
    (∃ e, (cmd_new w cfg a repoRoot d t).1 = .error e) ∧
    (∃ cb, Effect.worktreeAdd wtPath (autoPrefixed cfg.autoPrefixCfg a.branch)
      (resolveSource w a) cb ∈ (cmd_new w cfg a repoRoot d t).2) ∧
    (∀ p, Effect.worktreeRemove p ∉ (cmd_new w cfg a repoRoot d t).2) ∧
    (∀ b, Effect.branchDelete b ∉ (cmd_new w cfg a repoRoot d t).2) := by
  have hred : cmd_new w cfg a repoRoot d t =
      cmdNewFinish w cfg a (autoPrefixed cfg.autoPrefixCfg a.branch)
        (resolveSource w a) wtPath [.fetch] := by
    simp only [cmd_new, hsrc, hwt, hpath, hdir, Bool.not_true, Bool.false_eq_true,
      if_false]
  refine ⟨?_, ?_, ?_, ?_⟩
  · rw [hred]
    exact cmdNewFinish_hook_error _ _ _ _ _ _ _ hcont hfail
  · rw [hred]
    exact cmdNewFinish_worktreeAdd_mem _ _ _ _ _ _ _
  · intro p hp
    exact cmd_new_no_removal w cfg a repoRoot d t _ hp
  · intro b hb
    exact cmd_new_no_removal w cfg a repoRoot d t _ hb

/-- Witness for C9: a concrete world whose single hook fails in fail-fast
mode makes the operation exit with an error (after worktree creation). -/
theorem cmd_new_hook_failfast_no_rollback_witness :
    ∃ e, (cmd_new
      { remoteRefs := ["origin/main"], localBranches := [], worktrees := [],
        existingDirs := [], emptyDirs := [], hooks := ["01-fail.sh"],
        hookOk := fun _ => false }
      { paths := { worktree_root := "", worktree_path_template := "$WT_ROOT/$BRANCH_NAME" },
        autoPrefixCfg := "", continueOnError := false, vscodeCreate := false }
      { branch := "feat", from_branch := "origin/main", track := false, force := false }
      "/home/u/repo" "2026-10-12" "12:00:00").1 = .error e :=
  (cmd_new_hook_failfast_no_rollback
    { remoteRefs := ["origin/main"], localBranches := [], worktrees := [],
      existingDirs := [], emptyDirs := [], hooks := ["01-fail.sh"],
      hookOk := fun _ => false }
    { paths := { worktree_root := "", worktree_path_template := "$WT_ROOT/$BRANCH_NAME" },
      autoPrefixCfg := "", continueOnError := false, vscodeCreate := false }
    { branch := "feat", from_branch := "origin/main", track := false, force := false }
    "/home/u/repo" "2026-10-12" "12:00:00" "/home/u/repo-worktrees/feat"
    (by decide) (by decide) rfl (by decide) rfl
    ⟨"01-fail.sh", by decide, rfl⟩).1

/-! ### Theorems about bare-worktree visibility (claim C8) -/
/-- Counterexample to C8: the bare record is not excluded from every
user-facing listing mode — `wt list --json` emits one record per worktree
with no bare filter, so a bare worktree appears in its output. -/
theorem bare_in_list_json_counterexample :
    cmd_list_json [{ path := "/repo", branch := none, sha := "abcdef123",
                     is_bare := true, locked := none }] =
      [{ path := "/repo", branch := none, sha := "abcdef123",
         is_bare := true, locked := none }] ∧
    ({ path := "/repo", branch := none, sha := "abcdef123",
       is_bare := true, locked := none } : WorktreeInfo) ∈
      cmd_list_json [{ path := "/repo", branch := none, sha := "abcdef123",
                       is_bare := true, locked := none }] :=
  ⟨rfl, by decide⟩

/-- C8 (amended): bare worktree records are excluded from the status output
in both of its modes (every reconciled status, JSON record and table row,
stems from a non-bare worktree) and from the table mode of the listing; the
JSON mode of `wt list`, however, returns all records verbatim — bare entries
included, flagged by their `is_bare` field. -/
theorem bare_excluded_from_status_and_table_not_list_json :
    (∀ (env : GitEnv) (wts : List WorktreeInfo) (base : String),
      ∀ s ∈ get_all_worktree_statuses env wts base,
        ∃ wt ∈ wts, wt.is_bare = false ∧ s = get_worktree_status env wt base) ∧
    (∀ (env : GitEnv) (wts : List WorktreeInfo) (base : String),
      cmd_status_json env wts base = get_all_worktree_statuses env wts base) ∧
    (∀ (env : GitEnv) (wts : List WorktreeInfo) (base : String) (rich : Bool)
        (marker : String),
      ∀ row ∈ print_status_table_rows env wts base rich marker,
        ∃ wt ∈ wts, wt.is_bare = false ∧
          row = status_table_row rich marker (get_worktree_status env wt base)) ∧
    (∀ (wts : List WorktreeInfo) (rich : Bool),
      ∀ row ∈ print_list_table_rows wts rich,
        ∃ wt ∈ wts, wt.is_bare = false ∧ row = list_table_row rich wt) ∧
    (∀ wts : List WorktreeInfo, cmd_list_json wts = wts) := by
  have hstatus : ∀ (env : GitEnv) (wts : List WorktreeInfo) (base : String),
      ∀ s ∈ get_all_worktree_statuses env wts base,
        ∃ wt ∈ wts, wt.is_bare = false ∧ s = get_worktree_status env wt base := by
    intro env wts base s hs
    simp only [get_all_worktree_statuses, List.mem_map, List.mem_filter] at hs
    obtain ⟨wt, ⟨hmem, hbare⟩, rfl⟩ := hs
    exact ⟨wt, hmem, by simpa using hbare, rfl⟩
  refine ⟨hstatus, ?_, ?_, ?_, ?_⟩
  · intro env wts base
    exact List.map_id _
  · intro env wts base rich marker row hrow
    simp only [print_status_table_rows, List.mem_map] at hrow
    obtain ⟨s, hs, rfl⟩ := hrow
    obtain ⟨wt, hmem, hbare, rfl⟩ := hstatus env wts base s hs
    exact ⟨wt, hmem, hbare, rfl⟩
  · intro wts rich row hrow
    simp only [print_list_table_rows, List.mem_map, List.mem_filter] at hrow
    obtain ⟨wt, ⟨hmem, hbare⟩, rfl⟩ := hrow
    exact ⟨wt, hmem, by simpa using hbare, rfl⟩
  · intro wts
    exact List.map_id _

/-- Witness for the amended C8: a concrete one-element status snapshot stems
from its non-bare worktree. -/
theorem bare_excluded_from_status_witness :
    ∃ wt ∈ [({ path := "/wt/feat", branch := some "feat", sha := "abc",
               is_bare := false, locked := none } : WorktreeInfo)],
      wt.is_bare = false ∧
      get_worktree_status
        { shaShort := fun _ => "abc", dirty := fun _ => false,
          aheadBehind := fun _ => (0, 0), behindBase := fun _ _ => 0 }
        { path := "/wt/feat", branch := some "feat", sha := "abc",
          is_bare := false, locked := none } "origin/main" =
      get_worktree_status
        { shaShort := fun _ => "abc", dirty := fun _ => false,
          aheadBehind := fun _ => (0, 0), behindBase := fun _ _ => 0 }
        wt "origin/main" :=
  bare_excluded_from_status_and_table_not_list_json.1
    { shaShort := fun _ => "abc", dirty := fun _ => false,
      aheadBehind := fun _ => (0, 0), behindBase := fun _ _ => 0 }
    [{ path := "/wt/feat", branch := some "feat", sha := "abc",
       is_bare := false, locked := none }]
    "origin/main" _ (List.mem_singleton.mpr rfl)

/-- C2: with the lock initially free, the first process acquires it; a
second acquisition attempt against the same target by another process
returns immediately with the `LockError` (it is non-blocking by
construction: `flock_ex_nb` always returns); and after the first holder
releases, a subsequent non-concurrent acquisition by the second process
succeeds. -/
theorem repo_lock_mutual_exclusion (p1 p2 : Nat) (sys0 : LockSys)
    (h0 : sys0.owner = none) (hne : p1 ≠ p2) :
    RepoLock.acquire { pid := p1, acquired := false } sys0 =
      .ok ({ pid := p1, acquired := true }, { owner := some p1 }) ∧
    RepoLock.acquire { pid := p2, acquired := false } { owner := some p1 } =
      .error ("Could not acquire lock (another wt process running?): " ++
        "EWOULDBLOCK") ∧
    RepoLock.release { pid := p1, acquired := true } { owner := some p1 } =
      ({ pid := p1, acquired := false }, { owner := none }) ∧
    RepoLock.acquire { pid := p2, acquired := false } { owner := none } =
      .ok ({ pid := p2, acquired := true }, { owner := some p2 }) := by
  obtain ⟨o⟩ := sys0
  simp only at h0
  subst h0
  refine ⟨rfl, ?_, rfl, rfl⟩
  have hne2 : ¬ p1 = p2 := hne
  simp only [RepoLock.acquire, flock_ex_nb, if_neg hne2]

/-- Witness for C2 with processes 1 and 2. -/
theorem repo_lock_mutual_exclusion_witness :
    RepoLock.acquire { pid := 1, acquired := false } { owner := none } =
      .ok ({ pid := 1, acquired := true }, { owner := some 1 }) ∧
    RepoLock.acquire { pid := 2, acquired := false } { owner := some 1 } =
      .error ("Could not acquire lock (another wt process running?): " ++
        "EWOULDBLOCK") ∧
    RepoLock.release { pid := 1, acquired := true } { owner := some 1 } =
      ({ pid := 1, acquired := false }, { owner := none }) ∧
    RepoLock.acquire { pid := 2, acquired := false } { owner := none } =
      .ok ({ pid := 2, acquired := true }, { owner := some 2 }) :=
  repo_lock_mutual_exclusion 1 2 { owner := none } rfl (by decide)

end WT
